import Mathlib

/-!
Verification of the go-adc register-protocol codec and command-dispatch layer.

The register word codec and frame layer are embedded from
`pkg/layers` (`RegOp`, `RegLayer.Serialize`, `RegLayer.SerializeTo`,
`RegLayer.DecodeFromBytes`); the API dispatch logic is embedded from
`pkg/srv/control` (`ApiServer.regReadAllHex`, `ApiServer.handleMStreamAction`,
`ApiServer.handleMStreamActionAll`).  Go `uint16`/`uint32`/`byte` values are
modelled as `Nat` with explicit reductions modulo `2^16`, `2^32`, `2^8` at the
points where the Go types constrain them.
-/

/-- One register operation (`RegOp`, pkg/layers).  `RegNum` and `RegValue` are
Go `uint16` fields, modelled as `Nat` and reduced `% 65536` wherever the
struct fields are read. -/
structure RegOp where
  Read : Bool
  RegNum : Nat
  RegValue : Nat
deriving DecidableEq, Repr

/-- The 32-bit word that `RegLayer.Serialize` computes for one operation:
`0x80000000 | ((uint32(op.RegNum) & 0x7fff) << 16)` for a read,
`0x00000000 | ((uint32(op.RegNum) & 0x7fff) << 16) | uint32(op.RegValue)` for a write. -/
def encodeWord (op : RegOp) : Nat :=
  if op.Read then
    0x80000000 ||| (((op.RegNum % 65536) &&& 0x7fff) <<< 16)
  else
    0x00000000 ||| (((op.RegNum % 65536) &&& 0x7fff) <<< 16) ||| (op.RegValue % 65536)

/-- Little-endian serialization of a 32-bit word into 4 bytes
(`binary.LittleEndian.PutUint32`). -/
def putUint32LE (w : Nat) : List Nat :=
  [w % 256, (w >>> 8) % 256, (w >>> 16) % 256, (w >>> 24) % 256]

/-- Little-endian load of a 32-bit word from 4 bytes at a given offset
(`binary.LittleEndian.Uint32(data[offset:offset+4])`).  Out-of-range indices
default to 0; byte values are reduced `% 256` per the Go `byte` type. -/
def getUint32LE (data : List Nat) (off : Nat) : Nat :=
  (data.getD off 0 % 256) ||| ((data.getD (off + 1) 0 % 256) <<< 8) |||
    ((data.getD (off + 2) 0 % 256) <<< 16) ||| ((data.getD (off + 3) 0 % 256) <<< 24)

/-- Field extraction performed by `RegLayer.DecodeFromBytes` on one word:
read flag from bit 31 (`int8((word&0x80000000)>>31) == 1`), register number
`uint16((word & 0x7fff0000) >> 16)`, value `uint16(word & 0x0000ffff)`. -/
def decodeWord (w : Nat) : RegOp :=
  { Read := (w &&& 0x80000000) >>> 31 == 1
    RegNum := (w &&& 0x7fff0000) >>> 16
    RegValue := w &&& 0x0000ffff }

namespace RegLayer

/-- `RegLayer.Serialize`: writes word `i` at byte offset `4*i`, little-endian. -/
def Serialize (ops : List RegOp) : List Nat :=
  (ops.map (fun op => putUint32LE (encodeWord op))).flatten

/-- `RegLayer.SerializeTo`: appends `len(ops)*4` bytes to the serialize buffer
(`b.AppendBytes(len(reg.RegOps) * 4)` followed by `reg.Serialize(bytes)`). -/
def SerializeTo (b : List Nat) (ops : List RegOp) : List Nat :=
  b ++ Serialize ops

/-- `RegLayer.DecodeFromBytes`: decodes `len(data)/4` words in byte order and
always returns a nil error (the Go function has no failing path). -/
def DecodeFromBytes (data : List Nat) : Except String (List RegOp) :=
  Except.ok ((List.range (data.length / 4)).map (fun i => decodeWord (getUint32LE data (4 * i))))

end RegLayer

section BitLemmas

/-- Right shift distributes over bitwise or. -/
lemma shiftRight_lor_distrib (x y k : Nat) : (x ||| y) >>> k = (x >>> k) ||| (y >>> k) := by
  apply Nat.eq_of_testBit_eq
  intro i
  simp [Nat.testBit_shiftRight, Nat.testBit_lor]

/-- Bitwise or of a left-shifted value with a small value is addition. -/
lemma lor_shiftLeft_add (a b k : Nat) (hb : b < 2 ^ k) : (a <<< k) ||| b = a * 2 ^ k + b := by
  set x := (a <<< k) ||| b with hx
  have hmod : x % 2 ^ k = b := by
    rw [← Nat.and_pow_two_sub_one_eq_mod, hx, Nat.and_distrib_right]
    rw [Nat.and_pow_two_sub_one_eq_mod, Nat.and_pow_two_sub_one_eq_mod]
    rw [Nat.shiftLeft_eq, Nat.mul_mod_left, Nat.mod_eq_of_lt hb]
    exact Nat.zero_or b
  have hdiv : x / 2 ^ k = a := by
    rw [← Nat.shiftRight_eq_div_pow, hx, shiftRight_lor_distrib]
    rw [Nat.shiftLeft_eq, Nat.shiftRight_eq_div_pow, Nat.shiftRight_eq_div_pow]
    rw [Nat.mul_div_cancel a (Nat.two_pow_pos k), Nat.div_eq_of_lt hb]
    exact Nat.or_zero a
  have := Nat.div_add_mod x (2 ^ k)
  rw [hdiv, hmod, Nat.mul_comm] at this
  omega

/-- Masking with `2^k - 1` after a coarser mod collapses to the finer mod. -/
lemma mod_and_mask (n : Nat) : (n % 65536) &&& 0x7fff = n % 32768 := by
  have h : (0x7fff : Nat) = 2 ^ 15 - 1 := by norm_num
  rw [h, Nat.and_pow_two_sub_one_eq_mod]
  have h2 : (65536 : Nat) = 2 ^ 16 := by norm_num
  have h3 : (2 : Nat) ^ 15 = 32768 := by norm_num
  rw [h2, h3]
  exact Nat.mod_mod_of_dvd n (by norm_num)

/-- Arithmetic normal form of the encoder word. -/
lemma encodeWord_eq (op : RegOp) :
    encodeWord op =
      (cond op.Read 1 0) * 2 ^ 31 + (op.RegNum % 2 ^ 15) * 2 ^ 16 +
        (cond op.Read 0 (op.RegValue % 2 ^ 16)) := by
  obtain ⟨r, n, v⟩ := op
  have hmask := mod_and_mask n
  cases r with
  | true =>
    show 0x80000000 ||| (((n % 65536) &&& 0x7fff) <<< 16) =
      1 * 2 ^ 31 + (n % 2 ^ 15) * 2 ^ 16 + 0
    rw [hmask]
    have h31 : (0x80000000 : Nat) = 1 <<< 31 := by decide
    have hb : (n % 32768) <<< 16 < 2 ^ 31 := by
      rw [Nat.shiftLeft_eq]
      omega
    rw [h31, lor_shiftLeft_add _ _ _ hb, Nat.shiftLeft_eq]
    have h15 : n % 2 ^ 15 = n % 32768 := by norm_num
    rw [h15]
    omega
  | false =>
    show 0x00000000 ||| (((n % 65536) &&& 0x7fff) <<< 16) ||| (v % 65536) =
      0 * 2 ^ 31 + (n % 2 ^ 15) * 2 ^ 16 + (v % 2 ^ 16)
    rw [hmask]
    have hz : (0x00000000 : Nat) ||| ((n % 32768) <<< 16) =
        (n % 32768) <<< 16 := Nat.zero_or _
    rw [hz]
    have hv : v % 65536 < 2 ^ 16 := by
      have : v % 65536 < 65536 := Nat.mod_lt _ (by norm_num)
      omega
    rw [lor_shiftLeft_add _ _ _ hv]
    have h15 : n % 2 ^ 15 = n % 32768 := by norm_num
    have h16 : v % 2 ^ 16 = v % 65536 := by norm_num
    rw [h15, h16]
    omega

/-- The encoder always produces a value below `2^32`. -/
lemma encodeWord_lt (op : RegOp) : encodeWord op < 2 ^ 32 := by
  rw [encodeWord_eq]
  have h1 : op.RegNum % 2 ^ 15 < 2 ^ 15 := Nat.mod_lt _ (by norm_num)
  cases op.Read with
  | true => simp only [cond_true, cond_false]; omega
  | false =>
    simp only [cond_false]
    have h2 : op.RegValue % 2 ^ 16 < 2 ^ 16 := Nat.mod_lt _ (by norm_num)
    omega

/-- The read flag decoded from a word is its bit 31. -/
lemma decodeWord_Read (w : Nat) : (decodeWord w).Read = w.testBit 31 := by
  show ((w &&& 0x80000000) >>> 31 == 1) = w.testBit 31
  have h : (0x80000000 : Nat) = 2 ^ 31 := by norm_num
  rw [h, Nat.and_two_pow, Nat.shiftRight_eq_div_pow,
    Nat.mul_div_cancel _ (Nat.two_pow_pos 31)]
  cases w.testBit 31 <;> rfl

/-- The register number decoded from a word is bits 30..16. -/
lemma decodeWord_RegNum (w : Nat) : (decodeWord w).RegNum = w / 2 ^ 16 % 2 ^ 15 := by
  show (w &&& 0x7fff0000) >>> 16 = w / 2 ^ 16 % 2 ^ 15
  have hm : (0x7fff0000 : Nat) = (2 ^ 15 - 1) <<< 16 := by decide
  apply Nat.eq_of_testBit_eq
  intro i
  rw [Nat.testBit_shiftRight, Nat.testBit_land, hm, Nat.testBit_shiftLeft,
    Nat.testBit_two_pow_sub_one]
  have hdiv : w / 2 ^ 16 = w >>> 16 := (Nat.shiftRight_eq_div_pow w 16).symm
  rw [hdiv, Nat.testBit_mod_two_pow, Nat.testBit_shiftRight]
  have h1 : 16 + i - 16 = i := by omega
  have h2 : (decide (16 + i ≥ 16)) = true := by simp
  rw [h1, h2]
  cases w.testBit (16 + i) <;> simp [Bool.and_comm]

/-- The register value decoded from a word is its low 16 bits. -/
lemma decodeWord_RegValue (w : Nat) : (decodeWord w).RegValue = w % 2 ^ 16 := by
  show w &&& 0x0000ffff = w % 2 ^ 16
  have h : (0x0000ffff : Nat) = 2 ^ 16 - 1 := by norm_num
  rw [h, Nat.and_pow_two_sub_one_eq_mod]

/-- Decoding inverts encoding for in-range operations whose read flag forces a
zero value field. -/
lemma decode_encode (op : RegOp) (h1 : op.RegNum < 2 ^ 15) (h2 : op.RegValue < 2 ^ 16)
    (h3 : op.Read = true → op.RegValue = 0) : decodeWord (encodeWord op) = op := by
  cases op with
  | mk r n v =>
    simp only at h1 h2 h3
    have he := encodeWord_eq ⟨r, n, v⟩
    simp only at he
    cases r with
    | false =>
      have hw : encodeWord ⟨false, n, v⟩ = n * 2 ^ 16 + v := by
        rw [he]; simp only [cond_false]; rw [Nat.mod_eq_of_lt h1, Nat.mod_eq_of_lt h2]; omega
      have hr : (decodeWord (encodeWord ⟨false, n, v⟩)).Read = false := by
        rw [decodeWord_Read, hw, Nat.testBit_to_div_mod]
        have : (n * 2 ^ 16 + v) / 2 ^ 31 = 0 := by
          apply Nat.div_eq_of_lt
          omega
        rw [this]
        decide
      have hn : (decodeWord (encodeWord ⟨false, n, v⟩)).RegNum = n := by
        rw [decodeWord_RegNum, hw]
        omega
      have hv : (decodeWord (encodeWord ⟨false, n, v⟩)).RegValue = v := by
        rw [decodeWord_RegValue, hw]
        omega
      calc decodeWord (encodeWord ⟨false, n, v⟩)
          = ⟨(decodeWord (encodeWord ⟨false, n, v⟩)).Read,
             (decodeWord (encodeWord ⟨false, n, v⟩)).RegNum,
             (decodeWord (encodeWord ⟨false, n, v⟩)).RegValue⟩ := rfl
        _ = ⟨false, n, v⟩ := by rw [hr, hn, hv]
    | true =>
      have hv0 : v = 0 := h3 rfl
      have hw : encodeWord ⟨true, n, v⟩ = 2 ^ 31 + n * 2 ^ 16 := by
        rw [he]; simp only [cond_true]; rw [Nat.mod_eq_of_lt h1]; omega
      have hr : (decodeWord (encodeWord ⟨true, n, v⟩)).Read = true := by
        rw [decodeWord_Read, hw, Nat.testBit_to_div_mod]
        have : (2 ^ 31 + n * 2 ^ 16) / 2 ^ 31 = 1 := by
          have hlt : n * 2 ^ 16 < 2 ^ 31 := by omega
          omega
        rw [this]
        decide
      have hn : (decodeWord (encodeWord ⟨true, n, v⟩)).RegNum = n := by
        rw [decodeWord_RegNum, hw]
        omega
      have hv : (decodeWord (encodeWord ⟨true, n, v⟩)).RegValue = v := by
        rw [decodeWord_RegValue, hw]
        omega
      calc decodeWord (encodeWord ⟨true, n, v⟩)
          = ⟨(decodeWord (encodeWord ⟨true, n, v⟩)).Read,
             (decodeWord (encodeWord ⟨true, n, v⟩)).RegNum,
             (decodeWord (encodeWord ⟨true, n, v⟩)).RegValue⟩ := rfl
        _ = ⟨true, n, v⟩ := by rw [hr, hn, hv]

end BitLemmas

section FrameLemmas

lemma Serialize_cons (op : RegOp) (ops : List RegOp) :
    RegLayer.Serialize (op :: ops) = putUint32LE (encodeWord op) ++ RegLayer.Serialize ops := rfl

lemma Serialize_length (ops : List RegOp) :
    (RegLayer.Serialize ops).length = 4 * ops.length := by
  induction ops with
  | nil => rfl
  | cons op ops ih =>
    rw [Serialize_cons, List.length_append, ih]
    simp [putUint32LE]
    omega

lemma Serialize_drop (i : Nat) (ops : List RegOp) :
    (RegLayer.Serialize ops).drop (4 * i) = RegLayer.Serialize (ops.drop i) := by
  induction i generalizing ops with
  | zero => simp
  | succ k ih =>
    cases ops with
    | nil => simp [RegLayer.Serialize]
    | cons op ops =>
      rw [Serialize_cons]
      have h1 : 4 * (k + 1) = 4 + 4 * k := by omega
      rw [h1, ← List.drop_drop]
      have h2 : (putUint32LE (encodeWord op) ++ RegLayer.Serialize ops).drop 4 =
          RegLayer.Serialize ops := by
        simp [putUint32LE]
      rw [h2, ih]
      simp

lemma getD_drop (data : List Nat) (off j : Nat) :
    (data.drop off).getD j 0 = data.getD (off + j) 0 := by
  simp [List.getD_eq_getElem?_getD, List.getElem?_drop]

lemma getUint32LE_drop (data : List Nat) (off : Nat) :
    getUint32LE data off = getUint32LE (data.drop off) 0 := by
  simp [getUint32LE, getD_drop]

lemma getUint32LE_put (w : Nat) (hw : w < 2 ^ 32) (rest : List Nat) :
    getUint32LE (putUint32LE w ++ rest) 0 = w := by
  have hmm : ∀ a : Nat, a % 256 % 256 = a % 256 := fun a => Nat.mod_mod_of_dvd a dvd_rfl
  simp only [putUint32LE, List.cons_append, List.nil_append, getUint32LE,
    List.getD_cons_zero, List.getD_cons_succ, hmm]
  have hb0 : w % 256 < 2 ^ 8 := by have := Nat.mod_lt w (y := 256) (by norm_num); omega
  have hb1 : (w >>> 8) % 256 < 256 := Nat.mod_lt _ (by norm_num)
  have hb2 : (w >>> 16) % 256 < 256 := Nat.mod_lt _ (by norm_num)
  have s1 : w % 256 ||| ((w >>> 8) % 256) <<< 8 =
      ((w >>> 8) % 256) * 2 ^ 8 + w % 256 := by
    rw [Nat.lor_comm]
    exact lor_shiftLeft_add _ _ _ hb0
  have s2 : ((w >>> 8) % 256) * 2 ^ 8 + w % 256 ||| ((w >>> 16) % 256) <<< 16 =
      ((w >>> 16) % 256) * 2 ^ 16 + (((w >>> 8) % 256) * 2 ^ 8 + w % 256) := by
    rw [Nat.lor_comm]
    apply lor_shiftLeft_add
    omega
  have s3 : ((w >>> 16) % 256) * 2 ^ 16 + (((w >>> 8) % 256) * 2 ^ 8 + w % 256) |||
      ((w >>> 24) % 256) <<< 24 =
      ((w >>> 24) % 256) * 2 ^ 24 +
        (((w >>> 16) % 256) * 2 ^ 16 + (((w >>> 8) % 256) * 2 ^ 8 + w % 256)) := by
    rw [Nat.lor_comm]
    apply lor_shiftLeft_add
    omega
  rw [s1, s2, s3, Nat.shiftRight_eq_div_pow, Nat.shiftRight_eq_div_pow,
    Nat.shiftRight_eq_div_pow]
  omega

lemma getU_Serialize (ops : List RegOp) (i : Nat) (hi : i < ops.length) :
    getUint32LE (RegLayer.Serialize ops) (4 * i) = encodeWord (ops.get ⟨i, hi⟩) := by
  rw [getUint32LE_drop, Serialize_drop]
  rw [List.drop_eq_getElem_cons hi, Serialize_cons]
  exact getUint32LE_put _ (encodeWord_lt _) _

lemma getD_take (data : List Nat) (m idx : Nat) (h : idx < m) :
    (data.take m).getD idx 0 = data.getD idx 0 := by
  simp [List.getD_eq_getElem?_getD, List.getElem?_take, h]

end FrameLemmas

section Dispatch

/-- Decidable equality for `Except` values with decidable components. -/
instance exceptDecEq {ε α : Type} [DecidableEq ε] [DecidableEq α] :
    DecidableEq (Except ε α) := fun a b =>
  match a, b with
  | Except.ok x, Except.ok y =>
    match decEq x y with
    | isTrue h => isTrue (congrArg Except.ok h)
    | isFalse h => isFalse (fun hc => h (Except.ok.inj hc))
  | Except.error x, Except.error y =>
    match decEq x y with
    | isTrue h => isTrue (congrArg Except.error h)
    | isFalse h => isFalse (fun hc => h (Except.error.inj hc))
  | Except.ok _, Except.error _ => isFalse (fun hc => Except.noConfusion hc)
  | Except.error _, Except.ok _ => isFalse (fun hc => Except.noConfusion hc)

/-- Modelled from the spec: `layers.Reg` (the register address/value pair whose
`Hex` method renders both as hexadecimal text, §3 "RegHex (presentation form)").
The source file defining `Reg` is not among the provided files; only its use in
`ApiServer.regReadAllHex` is. -/
structure Reg where
  Addr : Nat
  Value : Nat
deriving DecidableEq, Repr

/-- Hexadecimal rendering of a natural number. -/
def hexStr (n : Nat) : String :=
  "0x" ++ String.mk (Nat.toDigits 16 n)

/-- Modelled from the spec: `Reg.Hex` returns the address and the value as
hexadecimal strings. -/
def Reg.Hex (r : Reg) : String × String :=
  (hexStr r.Addr, hexStr r.Value)

/-- Presentation form of one register (`RegHex` in pkg/srv/control). -/
structure RegHex where
  Addr : String
  Value : String
deriving DecidableEq, Repr

/-- Modelled from the spec: a Device Control Handle (§4.4).  The handle is an
opaque interface (`ifc.ControlServer` devices) whose implementation is not among
the provided files; each command's outcome is modelled as response data. -/
structure Device where
  RegReadAll : Except String (List Reg)
  MStreamStart : Except String Unit
  MStreamStop : Except String Unit
deriving DecidableEq, Repr

/-- Modelled from the spec: the Device Registry held by the control server
(§4.3); resolves a device by logical name and enumerates all devices. -/
structure ControlServer where
  devices : List (String × Device)
deriving DecidableEq, Repr

/-- Modelled from the spec: `GetDeviceByName` resolves a name to a handle and
fails with `ErrUnknownDevice` when absent (§4.3). -/
def ControlServer.GetDeviceByName (s : ControlServer) (name : String) :
    Except String Device :=
  match s.devices.lookup name with
  | some d => Except.ok d
  | none => Except.error ("ErrUnknownDevice: " ++ name)

/-- Modelled from the spec: `GetAllDevices` enumerates every registered device
in the registry's order (§4.3). -/
def ControlServer.GetAllDevices (s : ControlServer) : List Device :=
  s.devices.map Prod.snd

/-- HTTP-status classification an `ApiServer` handler writes
(`http.Error` with `StatusNotFound` / `StatusBadGateway` / `StatusBadRequest`,
or a successful 200 response). -/
inductive DispatchOutcome where
  | success : DispatchOutcome
  | notFound : String → DispatchOutcome
  | badGateway : String → DispatchOutcome
  | badRequest : String → DispatchOutcome
deriving DecidableEq, Repr

/-- The `ErrUnknownOperation` message built in the handlers' default branch. -/
def wrongActionMsg : String := "Wrong MStream action. Must be one of start/stop"

/-- Observable trace of `ApiServer.handleMStreamAction` (single device):
whether `GetDeviceByName` was called, which devices had a stream command
invoked, and the response written. -/
structure OneTrace where
  registryConsulted : Bool
  invoked : List String
  outcome : DispatchOutcome
deriving DecidableEq, Repr

/-- Observable trace of `ApiServer.handleMStreamActionAll`: whether
`GetAllDevices` was called, the registry positions of devices whose stream
command was invoked (in invocation order), and the response written. -/
structure AllTrace where
  registryConsulted : Bool
  invoked : List Nat
  outcome : DispatchOutcome
deriving DecidableEq, Repr

/-- `ApiServer.handleMStreamAction`: `GetDeviceByName` is called first
(before the action switch); then the switch dispatches `MStreamStart`,
`MStreamStop`, or the `ErrUnknownOperation` bad-request default. -/
def handleMStreamAction (s : ControlServer) (device action : String) : OneTrace :=
  match s.GetDeviceByName device with
  | Except.error e => { registryConsulted := true, invoked := [], outcome := .notFound e }
  | Except.ok d =>
    if action = "start" then
      match d.MStreamStart with
      | Except.error e =>
        { registryConsulted := true, invoked := [device], outcome := .badGateway e }
      | Except.ok _ =>
        { registryConsulted := true, invoked := [device], outcome := .success }
    else if action = "stop" then
      match d.MStreamStop with
      | Except.error e =>
        { registryConsulted := true, invoked := [device], outcome := .badGateway e }
      | Except.ok _ =>
        { registryConsulted := true, invoked := [device], outcome := .success }
    else
      { registryConsulted := true, invoked := [], outcome := .badRequest wrongActionMsg }

/-- The broadcast loop body shared by both branches of
`handleMStreamActionAll`: invoke the command on each device in order, stop at
the first error with a bad-gateway response.  The `Nat` argument is the
registry position of the first device in the remaining list. -/
def streamLoop (cmd : Device → Except String Unit) :
    List Device → Nat → List Nat × DispatchOutcome
  | [], _ => ([], .success)
  | d :: ds, i =>
    match cmd d with
    | Except.error e => ([i], .badGateway e)
    | Except.ok _ =>
      let r := streamLoop cmd ds (i + 1)
      (i :: r.1, r.2)

/-- `ApiServer.handleMStreamActionAll`: the action switch comes first;
`GetAllDevices` is only called in the `start`/`stop` branches, and the loop
stops at the first failing device. -/
def handleMStreamActionAll (s : ControlServer) (action : String) : AllTrace :=
  if action = "start" then
    let r := streamLoop (fun d => d.MStreamStart) s.GetAllDevices 0
    { registryConsulted := true, invoked := r.1, outcome := r.2 }
  else if action = "stop" then
    let r := streamLoop (fun d => d.MStreamStop) s.GetAllDevices 0
    { registryConsulted := true, invoked := r.1, outcome := r.2 }
  else
    { registryConsulted := false, invoked := [], outcome := .badRequest wrongActionMsg }

/-- `ApiServer.regReadAllHex`: resolve the device, call `RegReadAll`, and
render each returned register to hexadecimal presentation form in order. -/
def regReadAllHex (s : ControlServer) (device : String) :
    Except String (List RegHex) :=
  match s.GetDeviceByName device with
  | Except.error e => Except.error e
  | Except.ok d =>
    match d.RegReadAll with
    | Except.error e => Except.error e
    | Except.ok regs =>
      Except.ok (regs.map (fun r => { Addr := r.Hex.1, Value := r.Hex.2 }))

end Dispatch

section StreamLoopLemmas

lemma streamLoop_ok (cmd : Device → Except String Unit) (ds : List Device) :
    ∀ i : Nat, (∀ d ∈ ds, cmd d = Except.ok ()) →
      streamLoop cmd ds i = (List.range' i ds.length, DispatchOutcome.success) := by
  induction ds with
  | nil => intro i h; rfl
  | cons d ds ih =>
    intro i h
    have hd : cmd d = Except.ok () := h d (by simp)
    simp only [streamLoop, hd]
    rw [ih (i + 1) (fun x hx => h x (by simp [hx]))]
    simp [List.range'_succ]

lemma streamLoop_err (cmd : Device → Except String Unit) (ds : List Device) :
    ∀ (i k : Nat) (e : String) (hk : k < ds.length),
      cmd (ds.get ⟨k, hk⟩) = Except.error e →
      (∀ j (hj : j < ds.length), j < k → cmd (ds.get ⟨j, hj⟩) = Except.ok ()) →
      streamLoop cmd ds i = (List.range' i (k + 1), DispatchOutcome.badGateway e) := by
  induction ds with
  | nil =>
    intro i k e hk
    exact absurd hk (by simp)
  | cons d ds ih =>
    intro i k e hk hke hok
    cases k with
    | zero =>
      have hd : cmd d = Except.error e := hke
      simp only [streamLoop, hd]
      simp [List.range'_succ]
    | succ m =>
      have hd : cmd d = Except.ok () := hok 0 (by simp) (by omega)
      have hm : m < ds.length := by
        simpa using hk
      have hke' : cmd (ds.get ⟨m, hm⟩) = Except.error e := hke
      have hok' : ∀ j (hj : j < ds.length), j < m → cmd (ds.get ⟨j, hj⟩) = Except.ok () := by
        intro j hj hjm
        have hj' : j + 1 < (d :: ds).length := by simpa using hj
        exact hok (j + 1) hj' (by omega)
      simp only [streamLoop, hd]
      rw [ih (i + 1) m e hm hke' hok']
      simp [List.range'_succ]

end StreamLoopLemmas

section Claims

/-- C1 counterexample: `RegLayer.DecodeFromBytes` on a 3-byte buffer does not
fail with any error — it returns `ok []` — and on a 5-byte buffer it returns
`ok` of one decoded operation, contradicting the claim that a length that is
not a positive multiple of 4 fails with `ErrMalformedFrame`. -/
theorem c1_counterexample :
    RegLayer.DecodeFromBytes [1, 2, 3] = Except.ok []
    ∧ RegLayer.DecodeFromBytes [1, 2, 3, 4, 5] =
        Except.ok [{ Read := false, RegNum := 0x0403, RegValue := 0x0201 }] :=
  ⟨rfl, rfl⟩

/-- C1 (amended): deserialization never fails: for every byte buffer it
returns `ok` with `len(data)/4` (floor) operations decoded in byte order,
ignoring up to 3 trailing bytes; a 0-byte buffer yields an empty sequence and
a positive multiple of 4 yields `len(data)/4` operations. -/
theorem c1_decode_never_fails (data : List Nat) :
    (RegLayer.DecodeFromBytes data).isOk = true
    ∧ (data.length = 0 → RegLayer.DecodeFromBytes data = Except.ok [])
    ∧ ∃ ops : List RegOp, RegLayer.DecodeFromBytes data = Except.ok ops
        ∧ ops.length = data.length / 4
        ∧ ∀ i (hi : i < ops.length),
            ops.get ⟨i, hi⟩ = decodeWord (getUint32LE data (4 * i)) := by
  refine ⟨rfl, ?_, ?_⟩
  · intro h
    simp [RegLayer.DecodeFromBytes, h]
  · refine ⟨_, rfl, by simp, ?_⟩
    intro i hi
    simp only [List.length_map, List.length_range] at hi
    simp [List.get_eq_getElem, List.getElem_map, List.getElem_range]

/-- C1 witness: the amended theorem applied to the empty buffer. -/
theorem c1_witness : RegLayer.DecodeFromBytes ([] : List Nat) = Except.ok [] :=
  (c1_decode_never_fails []).2.1 rfl

/-- C2 counterexample: the operation `{Read: true, RegNum: 5, RegValue: 7}` has
both fields in range (`5 < 2^15`, `7 < 2^16`), yet decoding its serialization
yields `RegValue = 0`, not 7 — a read word never carries the value field, so
`deserialize(serialize(ops)) == ops` fails as stated. -/
theorem c2_counterexample :
    (5 : Nat) < 2 ^ 15 ∧ (7 : Nat) < 2 ^ 16
    ∧ RegLayer.DecodeFromBytes
        (RegLayer.Serialize [{ Read := true, RegNum := 5, RegValue := 7 }]) =
        Except.ok [{ Read := true, RegNum := 5, RegValue := 0 }]
    ∧ RegLayer.DecodeFromBytes
        (RegLayer.Serialize [{ Read := true, RegNum := 5, RegValue := 7 }]) ≠
        Except.ok [{ Read := true, RegNum := 5, RegValue := 7 }] := by
  refine ⟨by norm_num, by norm_num, rfl, ?_⟩
  intro h
  exact absurd (Except.ok.inj h) (by decide)

/-- C2 (amended): for every sequence of operations whose fields are in range
(`RegNum < 2^15`, `RegValue < 2^16`) and whose read operations carry
`RegValue = 0` (a read word encodes no value bits), deserializing the
serialized buffer yields the original sequence, field for field and in
order. -/
theorem c2_roundtrip (ops : List RegOp)
    (h : ∀ op ∈ ops, op.RegNum < 2 ^ 15 ∧ op.RegValue < 2 ^ 16 ∧
      (op.Read = true → op.RegValue = 0)) :
    RegLayer.DecodeFromBytes (RegLayer.Serialize ops) = Except.ok ops := by
  unfold RegLayer.DecodeFromBytes
  apply congrArg Except.ok
  have hlen : (RegLayer.Serialize ops).length / 4 = ops.length := by
    rw [Serialize_length]; omega
  apply List.ext_getElem
  · simp [hlen]
  · intro n h1 h2
    simp only [List.getElem_map, List.getElem_range]
    have hget := getU_Serialize ops n h2
    rw [List.get_eq_getElem] at hget
    rw [hget]
    obtain ⟨ha, hb, hc⟩ := h (ops[n]) (List.getElem_mem h2)
    exact decode_encode _ ha hb hc

/-- C2 witness: the amended round trip on a two-operation frame (one read with
zero value, one write). -/
theorem c2_witness :
    RegLayer.DecodeFromBytes (RegLayer.Serialize
      [{ Read := true, RegNum := 0x1234, RegValue := 0 },
       { Read := false, RegNum := 1, RegValue := 0xFF }]) =
    Except.ok
      [{ Read := true, RegNum := 0x1234, RegValue := 0 },
       { Read := false, RegNum := 1, RegValue := 0xFF }] :=
  c2_roundtrip _ (by decide)

end Claims

section ClaimsDispatch

/-- A device whose every command succeeds, used in concrete instantiations. -/
def devOk : Device :=
  { RegReadAll := Except.ok [], MStreamStart := Except.ok (), MStreamStop := Except.ok () }

/-- A device whose stream-start command fails, used in concrete instantiations. -/
def devFailStart : Device :=
  { RegReadAll := Except.ok [], MStreamStart := Except.error "stream start failed",
    MStreamStop := Except.ok () }

/-- A three-device registry whose second device fails stream-start. -/
def ctrl3 : ControlServer :=
  { devices := [("adc0", devOk), ("adc1", devFailStart), ("adc2", devOk)] }

/-- A one-device registry. -/
def ctrl4 : ControlServer := { devices := [("adc0", devOk)] }

/-- C3: broadcasting stream-start or stream-stop to all devices invokes them
one at a time in registry enumeration order; if every device succeeds, each is
invoked exactly once (positions `0..n-1` in order); if some device is the
first to fail, its error is reported as the bad-gateway response, the invoked
positions are exactly `0..k`, and no later device is ever invoked. -/
theorem c3_broadcast_fail_fast (s : ControlServer) (action : String)
    (cmd : Device → Except String Unit)
    (hact : (action = "start" ∧ cmd = fun d => d.MStreamStart)
      ∨ (action = "stop" ∧ cmd = fun d => d.MStreamStop)) :
    ((∀ d ∈ s.GetAllDevices, cmd d = Except.ok ()) →
      (handleMStreamActionAll s action).invoked = List.range s.GetAllDevices.length
      ∧ (handleMStreamActionAll s action).outcome = DispatchOutcome.success)
    ∧ ∀ k e (hk : k < s.GetAllDevices.length),
        cmd (s.GetAllDevices.get ⟨k, hk⟩) = Except.error e →
        (∀ j (hj : j < s.GetAllDevices.length), j < k →
          cmd (s.GetAllDevices.get ⟨j, hj⟩) = Except.ok ()) →
        (handleMStreamActionAll s action).invoked = List.range (k + 1)
        ∧ (handleMStreamActionAll s action).outcome = DispatchOutcome.badGateway e
        ∧ ∀ j, k < j → j ∉ (handleMStreamActionAll s action).invoked := by
  have main : ∀ tr : AllTrace,
      tr = { registryConsulted := true, invoked := (streamLoop cmd s.GetAllDevices 0).1,
             outcome := (streamLoop cmd s.GetAllDevices 0).2 } →
      ((∀ d ∈ s.GetAllDevices, cmd d = Except.ok ()) →
        tr.invoked = List.range s.GetAllDevices.length
        ∧ tr.outcome = DispatchOutcome.success)
      ∧ ∀ k e (hk : k < s.GetAllDevices.length),
          cmd (s.GetAllDevices.get ⟨k, hk⟩) = Except.error e →
          (∀ j (hj : j < s.GetAllDevices.length), j < k →
            cmd (s.GetAllDevices.get ⟨j, hj⟩) = Except.ok ()) →
          tr.invoked = List.range (k + 1)
          ∧ tr.outcome = DispatchOutcome.badGateway e
          ∧ ∀ j, k < j → j ∉ tr.invoked := by
    intro tr htr
    subst htr
    constructor
    · intro hall
      rw [streamLoop_ok cmd s.GetAllDevices 0 hall]
      exact ⟨(List.range_eq_range' _).symm ▸ rfl, rfl⟩
    · intro k e hk hke hok
      rw [streamLoop_err cmd s.GetAllDevices 0 k e hk hke hok]
      refine ⟨(List.range_eq_range' _).symm ▸ rfl, rfl, ?_⟩
      intro j hj hmem
      rw [← List.range_eq_range'] at hmem
      rw [List.mem_range] at hmem
      omega
  rcases hact with ⟨ha, hc⟩ | ⟨ha, hc⟩ <;> subst ha <;> subst hc
  · exact main _ (by simp [handleMStreamActionAll])
  · exact main _ (by simp [handleMStreamActionAll])

/-- C3 witness: in the three-device registry whose second device fails
stream-start, the broadcast invokes positions 0 and 1 only, reports the second
device's error, and position 2 is never invoked. -/
theorem c3_witness :
    (handleMStreamActionAll ctrl3 "start").invoked = List.range (1 + 1)
    ∧ (handleMStreamActionAll ctrl3 "start").outcome =
        DispatchOutcome.badGateway "stream start failed"
    ∧ 2 ∉ (handleMStreamActionAll ctrl3 "start").invoked := by
  have h := (c3_broadcast_fail_fast ctrl3 "start" (fun d => d.MStreamStart)
    (Or.inl ⟨rfl, rfl⟩)).2 1 "stream start failed" (by decide) (by decide)
    (by
      intro j hj hj1
      have hj0 : j = 0 := by omega
      subst hj0
      rfl)
  exact ⟨h.1, h.2.1, h.2.2 2 (by norm_num)⟩

/-- C4 counterexample: on an unrecognized action the single-device handler
does consult the Device Registry — `GetDeviceByName` runs before the action
switch — contradicting the claim that the registry is never consulted for
both handlers; moreover, with an unresolvable device name the response is the
registry's not-found error rather than `ErrUnknownOperation`. -/
theorem c4_counterexample :
    (handleMStreamAction ctrl4 "adc0" "reset").registryConsulted = true
    ∧ (handleMStreamAction ctrl4 "adc0" "reset").outcome =
        DispatchOutcome.badRequest wrongActionMsg
    ∧ (handleMStreamAction { devices := [] } "adc9" "reset").outcome =
        DispatchOutcome.notFound ("ErrUnknownDevice: " ++ "adc9") :=
  ⟨rfl, rfl, rfl⟩

/-- C4 (amended): on an action outside start/stop, no device command is
invoked by either handler and the all-devices handler never consults the
registry, failing with the `ErrUnknownOperation` bad-request; the
single-device handler, however, resolves the device from the registry before
checking the verb — it reports `ErrUnknownOperation` when the lookup succeeds
and the registry's not-found error when it fails. -/
theorem c4_unknown_action (s : ControlServer) (name action : String)
    (h1 : action ≠ "start") (h2 : action ≠ "stop") :
    (handleMStreamActionAll s action).registryConsulted = false
    ∧ (handleMStreamActionAll s action).invoked = []
    ∧ (handleMStreamActionAll s action).outcome = DispatchOutcome.badRequest wrongActionMsg
    ∧ (handleMStreamAction s name action).registryConsulted = true
    ∧ (handleMStreamAction s name action).invoked = []
    ∧ (∀ d, s.GetDeviceByName name = Except.ok d →
        (handleMStreamAction s name action).outcome = DispatchOutcome.badRequest wrongActionMsg)
    ∧ ∀ e, s.GetDeviceByName name = Except.error e →
        (handleMStreamAction s name action).outcome = DispatchOutcome.notFound e := by
  refine ⟨by simp [handleMStreamActionAll, h1, h2], by simp [handleMStreamActionAll, h1, h2],
    by simp [handleMStreamActionAll, h1, h2], ?_, ?_, ?_, ?_⟩
  · cases hdev : s.GetDeviceByName name with
    | error e => simp [handleMStreamAction, hdev, h1, h2]
    | ok d => simp [handleMStreamAction, hdev, h1, h2]
  · cases hdev : s.GetDeviceByName name with
    | error e => simp [handleMStreamAction, hdev, h1, h2]
    | ok d => simp [handleMStreamAction, hdev, h1, h2]
  · intro d hd
    cases hdev : s.GetDeviceByName name with
    | error e => rw [hdev] at hd; exact Except.noConfusion hd
    | ok d' => simp [handleMStreamAction, hdev, h1, h2]
  · intro e he
    cases hdev : s.GetDeviceByName name with
    | error e' =>
      rw [hdev] at he
      have he' : e' = e := Except.error.inj he
      subst he'
      simp [handleMStreamAction, hdev]
    | ok d => rw [hdev] at he; exact Except.noConfusion he

/-- C4 witness: the amended theorem instantiated at a one-device registry and
the unrecognized action "reset". -/
theorem c4_witness :
    (handleMStreamActionAll ctrl4 "reset").registryConsulted = false
    ∧ (handleMStreamAction ctrl4 "adc0" "reset").registryConsulted = true :=
  And.intro
    (c4_unknown_action ctrl4 "adc0" "reset" (by decide) (by decide)).1
    (c4_unknown_action ctrl4 "adc0" "reset" (by decide) (by decide)).2.2.2.1

end ClaimsDispatch

section ClaimsCodec

/-- C5: encoding `{Read: true, RegNum: 0x1234, RegValue: v}` for every value
`v` yields the 32-bit word `0x92340000` (written little-endian on the wire as
bytes `00 00 34 92`), and encoding `{Read: false, RegNum: 0x0001,
RegValue: 0x00FF}` yields the word `0x000100FF` (bytes `FF 00 01 00`). -/
theorem c5_bit_layout :
    (∀ v : Nat, encodeWord { Read := true, RegNum := 0x1234, RegValue := v } = 0x92340000)
    ∧ encodeWord { Read := false, RegNum := 0x0001, RegValue := 0x00FF } = 0x000100FF
    ∧ (∀ v : Nat,
        RegLayer.Serialize [{ Read := true, RegNum := 0x1234, RegValue := v }] =
          [0x00, 0x00, 0x34, 0x92])
    ∧ RegLayer.Serialize [{ Read := false, RegNum := 0x0001, RegValue := 0x00FF }] =
        [0xFF, 0x00, 0x01, 0x00] := by
  have hput : ∀ w : Nat, putUint32LE w =
      [w % 256, w / 2 ^ 8 % 256, w / 2 ^ 16 % 256, w / 2 ^ 24 % 256] := by
    intro w
    simp [putUint32LE, Nat.shiftRight_eq_div_pow]
  have he : ∀ v : Nat,
      encodeWord { Read := true, RegNum := 0x1234, RegValue := v } = 0x92340000 := by
    intro v
    rw [encodeWord_eq]
    norm_num
  have hw : encodeWord { Read := false, RegNum := 0x0001, RegValue := 0x00FF } = 0x000100FF := by
    rw [encodeWord_eq]
    norm_num
  refine ⟨he, hw, ?_, ?_⟩
  · intro v
    show putUint32LE (encodeWord { Read := true, RegNum := 0x1234, RegValue := v }) ++
      RegLayer.Serialize [] = [0x00, 0x00, 0x34, 0x92]
    rw [he v, hput]
    norm_num
    rfl
  · show putUint32LE (encodeWord { Read := false, RegNum := 0x0001, RegValue := 0x00FF }) ++
      RegLayer.Serialize [] = [0xFF, 0x00, 0x01, 0x00]
    rw [hw, hput]
    norm_num
    rfl

/-- C6: encoding is a total function with no error path; the register-number
field of the produced word (bits 30..16) is the operation's register number
truncated to its low 15 bits, the value field (bits 15..0) is the register
value truncated to 16 bits for writes and zero for reads, the word fits 32
bits, and in particular register number `0xFFFF` encodes as `0x7FFF`. -/
theorem c6_encode_truncation (op : RegOp) :
    encodeWord op / 2 ^ 16 % 2 ^ 15 = op.RegNum % 2 ^ 15
    ∧ (op.Read = false → encodeWord op % 2 ^ 16 = op.RegValue % 2 ^ 16)
    ∧ (op.Read = true → encodeWord op % 2 ^ 16 = 0)
    ∧ encodeWord op < 2 ^ 32
    ∧ encodeWord { Read := false, RegNum := 0xFFFF, RegValue := 0 } / 2 ^ 16 % 2 ^ 15
        = 0x7FFF := by
  refine ⟨?_, ?_, ?_, encodeWord_lt op, by decide⟩
  · obtain ⟨r, n, v⟩ := op
    cases r with
    | true =>
      rw [encodeWord_eq]
      simp only [cond_true]
      have hn : n % 2 ^ 15 < 2 ^ 15 := Nat.mod_lt _ (by norm_num)
      omega
    | false =>
      rw [encodeWord_eq]
      simp only [cond_false]
      have hn : n % 2 ^ 15 < 2 ^ 15 := Nat.mod_lt _ (by norm_num)
      have hv : v % 2 ^ 16 < 2 ^ 16 := Nat.mod_lt _ (by norm_num)
      omega
  · intro hr
    obtain ⟨r, n, v⟩ := op
    subst hr
    rw [encodeWord_eq]
    simp only [cond_false]
    have hv : v % 2 ^ 16 < 2 ^ 16 := Nat.mod_lt _ (by norm_num)
    omega
  · intro hr
    obtain ⟨r, n, v⟩ := op
    subst hr
    rw [encodeWord_eq]
    simp only [cond_true]
    omega

/-- C6 witness: the truncation theorem applied to the write operation with
register number `0xFFFF` and value 3. -/
theorem c6_witness :
    encodeWord { Read := false, RegNum := 0xFFFF, RegValue := 3 } / 2 ^ 16 % 2 ^ 15 =
      0xFFFF % 2 ^ 15
    ∧ encodeWord { Read := false, RegNum := 0xFFFF, RegValue := 3 } % 2 ^ 16 = 3 % 2 ^ 16 :=
  ⟨(c6_encode_truncation _).1, (c6_encode_truncation _).2.1 rfl⟩

/-- C7: frame serialization produces exactly `4*len(ops)` bytes; the 4 bytes
at offset `4*i` are the little-endian encoding of `ops[i]`; and `SerializeTo`
appends exactly `len(ops)*4` bytes to the caller-supplied buffer. -/
theorem c7_serialize_layout (ops : List RegOp) (b : List Nat) :
    (RegLayer.Serialize ops).length = 4 * ops.length
    ∧ (∀ i (hi : i < ops.length),
        ((RegLayer.Serialize ops).drop (4 * i)).take 4 =
          putUint32LE (encodeWord (ops.get ⟨i, hi⟩)))
    ∧ RegLayer.SerializeTo b ops = b ++ RegLayer.Serialize ops
    ∧ (RegLayer.SerializeTo b ops).length = b.length + 4 * ops.length := by
  refine ⟨Serialize_length ops, ?_, rfl, ?_⟩
  · intro i hi
    rw [Serialize_drop, List.drop_eq_getElem_cons hi, Serialize_cons]
    simp [putUint32LE, List.get_eq_getElem]
  · show (b ++ RegLayer.Serialize ops).length = b.length + 4 * ops.length
    rw [List.length_append, Serialize_length]

/-- C7 witness: the layout theorem applied to a one-operation frame at index
0 with an empty caller buffer. -/
theorem c7_witness :
    ((RegLayer.Serialize [{ Read := false, RegNum := 1, RegValue := 0xFF }]).drop (4 * 0)).take 4
      = putUint32LE (encodeWord
          (([{ Read := false, RegNum := 1, RegValue := 0xFF }] : List RegOp).get
            ⟨0, by norm_num⟩)) :=
  (c7_serialize_layout [{ Read := false, RegNum := 1, RegValue := 0xFF }] []).2.1 0 (by norm_num)

end ClaimsCodec

section ClaimsTail

/-- C8: `regReadAllHex` renders the device's returned register sequence to
hexadecimal presentation form in exactly the returned order — the i-th
rendered address/value pair is the rendering of the i-th register, with none
dropped, duplicated, or reordered. -/
theorem c8_readall_order (s : ControlServer) (device : String) (d : Device)
    (regs : List Reg) (hd : s.GetDeviceByName device = Except.ok d)
    (hr : d.RegReadAll = Except.ok regs) :
    regReadAllHex s device =
      Except.ok (regs.map (fun r => { Addr := r.Hex.1, Value := r.Hex.2 }))
    ∧ ∃ out, regReadAllHex s device = Except.ok out
        ∧ out.length = regs.length
        ∧ ∀ i (hi : i < regs.length) (ho : i < out.length),
            out.get ⟨i, ho⟩ =
              { Addr := (regs.get ⟨i, hi⟩).Hex.1, Value := (regs.get ⟨i, hi⟩).Hex.2 } := by
  have hmain : regReadAllHex s device =
      Except.ok (regs.map (fun r => { Addr := r.Hex.1, Value := r.Hex.2 })) := by
    simp [regReadAllHex, hd, hr]
  refine ⟨hmain, _, hmain, by simp, ?_⟩
  intro i hi ho
  simp [List.get_eq_getElem, List.getElem_map]

/-- A device returning registers `(0,5)` then `(1,9)`, with a registry holding
it, used to instantiate the order-preservation theorem. -/
def dev8 : Device :=
  { RegReadAll := Except.ok [{ Addr := 0, Value := 5 }, { Addr := 1, Value := 9 }],
    MStreamStart := Except.ok (), MStreamStop := Except.ok () }

/-- One-device registry for the C8 witness. -/
def ctrl8 : ControlServer := { devices := [("adc0", dev8)] }

/-- C8 witness: the order-preservation theorem applied to a device returning
the two registers `(0,5)` and `(1,9)`. -/
theorem c8_witness :
    regReadAllHex ctrl8 "adc0" =
      Except.ok (([{ Addr := 0, Value := 5 }, { Addr := 1, Value := 9 }] : List Reg).map
        (fun r => { Addr := r.Hex.1, Value := r.Hex.2 })) :=
  (c8_readall_order ctrl8 "adc0" dev8 _ rfl rfl).1

/-- C9: frame decoding is total — for every input buffer of any length it
returns a nil error with exactly `floor(len(data)/4)` operations, and the
result is unchanged when up to 3 trailing bytes beyond the last full word are
removed (they are silently ignored). -/
theorem c9_decode_total (data : List Nat) :
    (∃ ops : List RegOp, RegLayer.DecodeFromBytes data = Except.ok ops
        ∧ ops.length = data.length / 4)
    ∧ RegLayer.DecodeFromBytes data =
        RegLayer.DecodeFromBytes (data.take (4 * (data.length / 4))) := by
  constructor
  · exact ⟨_, rfl, by simp⟩
  · unfold RegLayer.DecodeFromBytes
    apply congrArg Except.ok
    have hm : 4 * (data.length / 4) ≤ data.length := by
      have := Nat.div_mul_le_self data.length 4
      omega
    have hlen : (data.take (4 * (data.length / 4))).length = 4 * (data.length / 4) := by
      simp [List.length_take]
      omega
    have hq : (data.take (4 * (data.length / 4))).length / 4 = data.length / 4 := by
      rw [hlen]
      omega
    rw [hq]
    apply List.map_congr_left
    intro i hi
    rw [List.mem_range] at hi
    show decodeWord (getUint32LE data (4 * i)) =
      decodeWord (getUint32LE (data.take (4 * (data.length / 4))) (4 * i))
    unfold getUint32LE
    rw [getD_take data (4 * (data.length / 4)) (4 * i) (by omega),
      getD_take data (4 * (data.length / 4)) (4 * i + 1) (by omega),
      getD_take data (4 * (data.length / 4)) (4 * i + 2) (by omega),
      getD_take data (4 * (data.length / 4)) (4 * i + 3) (by omega)]

/-- C10: every operation produced by frame decoding has a register number
below `2^15` — the decoder masks the register-number field to 15 bits, so bit
15 of the upper half-word of an arbitrary wire word never leaks into it. -/
theorem c10_decoded_regnum_bound (data : List Nat) (ops : List RegOp)
    (h : RegLayer.DecodeFromBytes data = Except.ok ops) :
    ∀ op ∈ ops, op.RegNum < 2 ^ 15 := by
  intro op hop
  have hops : (List.range (data.length / 4)).map
      (fun i => decodeWord (getUint32LE data (4 * i))) = ops := by
    unfold RegLayer.DecodeFromBytes at h
    exact Except.ok.inj h
  rw [← hops] at hop
  obtain ⟨i, hi, hdec⟩ := List.mem_map.mp hop
  rw [← hdec, decodeWord_RegNum]
  exact Nat.mod_lt _ (by norm_num)

/-- C10 witness: the bound applied to the all-ones word `FF FF FF FF`, whose
decoded register number is `0x7FFF < 2^15` even though bit 15 of the upper
half-word is set. -/
theorem c10_witness :
    ({ Read := true, RegNum := 0x7FFF, RegValue := 0xFFFF } : RegOp).RegNum < 2 ^ 15 :=
  c10_decoded_regnum_bound [0xFF, 0xFF, 0xFF, 0xFF]
    [{ Read := true, RegNum := 0x7FFF, RegValue := 0xFFFF }] rfl
    { Read := true, RegNum := 0x7FFF, RegValue := 0xFFFF } (by decide)

end ClaimsTail
